import Mathlib

/-!
# Verification of a multi-axis linear Kalman filter

Shallow embedding, over exact rationals, of kalman.py: the block-diagonal
axis expansion make_nd, the kinematic matrix builders, and the
predict/update recursion of the main loop (lines 106-111 of the source).

Numpy arrays are modelled as lists of rows where the concatenation
structure of the source matters (make_nd), and as Fin-indexed matrices
for the linear-algebra recursion.  The function np.linalg.inv, which
raises on a singular matrix (the script runs under np.seterr raising on
all floating errors), is modelled as an Except-returning inverse.

Integer-valued helper matrices (names starting with list...z) are scaled
copies of the concrete scenario matrices; they only serve evaluation
proofs, since rational arithmetic does not reduce in the kernel.
-/

namespace Kalman

open Matrix

/-! ## The list layer: make_nd as written in the source (lines 13-32) -/

/-- Model of np.zeros_like(mtx): a matrix of zeros with the shape of mtx. -/
def zerosLike (m : List (List ℚ)) : List (List ℚ) :=
  m.map fun row => row.map fun _ => (0 : ℚ)

/-- Model of concat_optional((a, b)) with axis 0 (row stacking): None
entries are dropped, so a none accumulator yields b, otherwise rows append. -/
def concatOpt0 (a : Option (List (List ℚ))) (b : List (List ℚ)) : List (List ℚ) :=
  match a with
  | none => b
  | some a => a ++ b

/-- Model of concat_optional((a, b), axis=1) (column stacking): a none
accumulator yields b, otherwise each row of a is extended by the matching
row of b. -/
def concatOpt1 (a : Option (List (List ℚ))) (b : List (List ℚ)) : List (List ℚ) :=
  match a with
  | none => b
  | some a => List.zipWith (· ++ ·) a b

/-- Inner loop of make_nd: for fixed column-block index i, stack ndim
blocks vertically, the j-th being mtx when i == j and zeros otherwise. -/
def makeNdCol (mtx : List (List ℚ)) (i ndim : ℕ) : Option (List (List ℚ)) :=
  (List.range ndim).foldl
    (fun col j => some (concatOpt0 col (if i = j then mtx else zerosLike mtx))) none

/-- Model of make_nd(gen, ndim) applied to a produced matrix mtx: the outer
loop stacks the ndim block columns horizontally. -/
def make_nd (mtx : List (List ℚ)) (ndim : ℕ) : List (List ℚ) :=
  ((List.range ndim).foldl
    (fun base i => some (concatOpt1 base ((makeNdCol mtx i ndim).getD []))) none).getD []

/-- Entry access on a list-of-rows matrix, defaulting to 0 out of range. -/
def entry (m : List (List ℚ)) (p q : ℕ) : ℚ :=
  (m.getD p []).getD q 0

/-- Block column accumulated by the inner loop, with the Option payload
extracted. -/
def colD (mtx : List (List ℚ)) (i n : ℕ) : List (List ℚ) :=
  (makeNdCol mtx i n).getD []

/-- Outer loop of make_nd after k of the n column blocks. -/
def outFold (mtx : List (List ℚ)) (n k : ℕ) : Option (List (List ℚ)) :=
  (List.range k).foldl (fun base i => some (concatOpt1 base (colD mtx i n))) none

/-- Matrix assembled by the outer loop after k column blocks. -/
def outD (mtx : List (List ℚ)) (n k : ℕ) : List (List ℚ) :=
  (outFold mtx n k).getD []

/-- Entry access for integer list matrices (used by evaluation helpers). -/
def entryZ (m : List (List ℤ)) (p q : ℕ) : ℤ :=
  (m.getD p []).getD q 0

/-! ## Matrix view of the kinematic builders (source lines 35-76) -/

/-- View of a list-of-rows matrix as a Fin-indexed matrix (out-of-range
entries default to 0, which never occurs for the shapes used). -/
def ofL (a b : ℕ) (m : List (List ℚ)) : Matrix (Fin a) (Fin b) ℚ :=
  Matrix.of fun i j => entry m i j

/-- View of an integer list matrix as a Fin-indexed integer matrix. -/
def ofLZ (a b : ℕ) (m : List (List ℤ)) : Matrix (Fin a) (Fin b) ℤ :=
  Matrix.of fun i j => entryZ m i j

/-- Per-axis body of get_transition_matrix (source lines 36-42). -/
def transitionBase (t : ℚ) : List (List ℚ) :=
  [[1, t, 0.5 * t * t], [0, 1, t], [0, 0, 1]]

/-- Model of get_transition_matrix(delta_t): the make_nd-decorated builder,
with its default ndim = 3. -/
def get_transition_matrix (t : ℚ) : Matrix (Fin 9) (Fin 9) ℚ :=
  ofL 9 9 (make_nd (transitionBase t) 3)

/-- Per-axis body of get_control_matrix (source lines 45-51). -/
def controlBase (t : ℚ) : List (List ℚ) :=
  [[t, 0.5 * t * t], [1, t], [0, 1]]

/-- Model of get_control_matrix(delta_t): make_nd-decorated, ndim = 3. -/
def get_control_matrix (t : ℚ) : Matrix (Fin 9) (Fin 6) ℚ :=
  ofL 9 6 (make_nd (controlBase t) 3)

/-- Model of get_process_noise(delta_t, accel_std), source lines 53-56:
accel_std squared times G times G transposed, with G the expanded control
matrix. -/
def get_process_noise (t a : ℚ) : Matrix (Fin 9) (Fin 9) ℚ :=
  a ^ 2 • (get_control_matrix t * (get_control_matrix t)ᵀ)

/-- Model of get_observation_matrix() (source lines 58-63). -/
def get_observation_matrix : Matrix (Fin 3) (Fin 9) ℚ :=
  ofL 3 9 [[1, 0, 0, 0, 0, 0, 0, 0, 0],
           [0, 0, 0, 1, 0, 0, 0, 0, 0],
           [0, 0, 0, 0, 0, 0, 1, 0, 0]]

/-- Model of get_starting_position(initial_pos) (source lines 65-67). -/
def get_starting_position (p : ℚ × ℚ × ℚ) : Fin 9 → ℚ := fun i =>
  [p.1, 0, 0, p.2.1, 0, 0, p.2.2, 0, 0].getD i 0

/-- Per-axis body of get_starting_uncertainty (source lines 70-76). -/
def uncertaintyBase (s : ℚ) : List (List ℚ) :=
  [[s ^ 2, 0, 0], [0, 0, 0], [0, 0, 0]]

/-- Model of get_starting_uncertainty(initial_pos_std): make_nd-decorated,
ndim = 3. -/
def get_starting_uncertainty (s : ℚ) : Matrix (Fin 9) (Fin 9) ℚ :=
  ofL 9 9 (make_nd (uncertaintyBase s) 3)

/-! ## The predict/update recursion (main-loop body, source lines 106-111) -/

/-- Running pair (x_est, p_est) of the main loop. -/
structure KState (n : ℕ) where
  x : Fin n → ℚ
  P : Matrix (Fin n) (Fin n) ℚ
deriving DecidableEq

/-- Failure raised by np.linalg.inv on a singular argument (the script runs
under np.seterr raising on all floating errors, so nothing is silently NaN). -/
inductive KError where
  | singularInnovationCovariance
deriving DecidableEq

/-- Model of np.linalg.inv: the exact inverse, determinant inverse times
adjugate, when the argument is invertible; an explicit error when it is
singular. -/
def npLinalgInv {m : ℕ} (S : Matrix (Fin m) (Fin m) ℚ) :
    Except KError (Matrix (Fin m) (Fin m) ℚ) :=
  if S.det = 0 then .error .singularInnovationCovariance
  else .ok (S.det⁻¹ • S.adjugate)

/-- Lines 106-107: x_predict is F x_est plus G control, p_predict is
F p_est F-transposed plus Q. -/
def predict {n c : ℕ} (F : Matrix (Fin n) (Fin n) ℚ) (G : Matrix (Fin n) (Fin c) ℚ)
    (Q : Matrix (Fin n) (Fin n) ℚ) (u : Fin c → ℚ) (x : Fin n → ℚ)
    (P : Matrix (Fin n) (Fin n) ℚ) : KState n :=
  ⟨F *ᵥ x + G *ᵥ u, F * P * Fᵀ + Q⟩

/-- Lines 108-111: the gain K is p H-transposed times the inverse of the
innovation covariance, the state moves by K times the innovation, and the
covariance takes the Joseph form.  A singular innovation covariance
propagates the inversion failure; no assignment happens then. -/
def update {n m : ℕ} (H : Matrix (Fin m) (Fin n) ℚ) (z : Fin m → ℚ)
    (R : Matrix (Fin m) (Fin m) ℚ) (x : Fin n → ℚ)
    (P : Matrix (Fin n) (Fin n) ℚ) : Except KError (KState n) :=
  match npLinalgInv (H * P * Hᵀ + R) with
  | .error e => .error e
  | .ok Sinv =>
    let K := P * Hᵀ * Sinv
    let x1 := x + K *ᵥ (z - H *ᵥ x)
    let fact := 1 - K * H
    .ok ⟨x1, fact * P * factᵀ + K * R * Kᵀ⟩

/-- One call of the recursion: either a predict or an update. -/
inductive KStep (n c m : ℕ) where
  | predictStep (F : Matrix (Fin n) (Fin n) ℚ) (G : Matrix (Fin n) (Fin c) ℚ)
      (Q : Matrix (Fin n) (Fin n) ℚ) (u : Fin c → ℚ)
  | updateStep (H : Matrix (Fin m) (Fin n) ℚ) (z : Fin m → ℚ)
      (R : Matrix (Fin m) (Fin m) ℚ)

/-- Execution of one call.  A failed update performs no assignment, so the
prior pair (x, P) is kept. -/
def runStep {n c m : ℕ} (st : KStep n c m) (s : KState n) : KState n :=
  match st with
  | .predictStep F G Q u => predict F G Q u s.x s.P
  | .updateStep H z R =>
    match update H z R s.x s.P with
    | .ok s2 => s2
    | .error _ => s

/-- Execution of a sequence of predict and update calls. -/
def run {n c m : ℕ} (l : List (KStep n c m)) (s : KState n) : KState n :=
  l.foldl (fun s st => runStep st s) s

/-- Covariance argument supplied by a call: Q for a predict, R for an
update.  The sequence hypotheses of the invariant claim constrain these. -/
def stepCov {n c m : ℕ} : KStep n c m → Prop
  | .predictStep _ _ Q _ => Q.PosSemidef
  | .updateStep _ _ R => R.PosSemidef

/-! ## The concrete scenario (spec section 8): one predict, one update -/

/-- Transition matrix for delta_t = 10 / 1000 (source lines 81-84). -/
def scenF : Matrix (Fin 9) (Fin 9) ℚ := get_transition_matrix (1 / 100)

/-- Control matrix for delta_t = 1 / 100. -/
def scenG : Matrix (Fin 9) (Fin 6) ℚ := get_control_matrix (1 / 100)

/-- Process noise for delta_t = 1 / 100 and accel_std = 0.02. -/
def scenQ : Matrix (Fin 9) (Fin 9) ℚ := get_process_noise (1 / 100) (1 / 50)

/-- Predicted state after one predict with zero control from the starting
position (0, 0, 0.6) and starting uncertainty 0.2 (source lines 96-97, 106-107). -/
def scenPredict : KState 9 :=
  predict scenF scenG scenQ 0 (get_starting_position (0, 0, 0.6))
    (get_starting_uncertainty 0.2)

/-- Measurement (0, 0, 0.62). -/
def scenz : Fin 3 → ℚ := fun i => [0, 0, 0.62].getD i 0

/-- Measurement covariance diag(1e-4, 1e-4, 1e-4). -/
def scenR : Matrix (Fin 3) (Fin 3) ℚ :=
  Matrix.of fun i j => if i = j then 1 / 10000 else 0

/-- State after the update call of the scenario (source lines 108-111). -/
def scenUpdate : Except KError (KState 9) :=
  update get_observation_matrix scenz scenR scenPredict.x scenPredict.P

/-! ## Integer-scaled copies of the scenario matrices, for evaluation -/

/-- Scaled transition matrix: 20000 times the expanded F at delta_t 1/100. -/
def listFz : List (List ℤ) :=
  [[20000, 200, 1, 0, 0, 0, 0, 0, 0],
   [0, 20000, 200, 0, 0, 0, 0, 0, 0],
   [0, 0, 20000, 0, 0, 0, 0, 0, 0],
   [0, 0, 0, 20000, 200, 1, 0, 0, 0],
   [0, 0, 0, 0, 20000, 200, 0, 0, 0],
   [0, 0, 0, 0, 0, 20000, 0, 0, 0],
   [0, 0, 0, 0, 0, 0, 20000, 200, 1],
   [0, 0, 0, 0, 0, 0, 0, 20000, 200],
   [0, 0, 0, 0, 0, 0, 0, 0, 20000]]

/-- Scaled control matrix: 20000 times the expanded G at delta_t 1/100. -/
def listGz : List (List ℤ) :=
  [[200, 1, 0, 0, 0, 0],
   [20000, 200, 0, 0, 0, 0],
   [0, 20000, 0, 0, 0, 0],
   [0, 0, 200, 1, 0, 0],
   [0, 0, 20000, 200, 0, 0],
   [0, 0, 0, 20000, 0, 0],
   [0, 0, 0, 0, 200, 1],
   [0, 0, 0, 0, 20000, 200],
   [0, 0, 0, 0, 0, 20000]]

/-- Scaled starting uncertainty: 25 times the expanded P0 at std 0.2. -/
def listP0z : List (List ℤ) :=
  [[1, 0, 0, 0, 0, 0, 0, 0, 0],
   [0, 0, 0, 0, 0, 0, 0, 0, 0],
   [0, 0, 0, 0, 0, 0, 0, 0, 0],
   [0, 0, 0, 1, 0, 0, 0, 0, 0],
   [0, 0, 0, 0, 0, 0, 0, 0, 0],
   [0, 0, 0, 0, 0, 0, 0, 0, 0],
   [0, 0, 0, 0, 0, 0, 1, 0, 0],
   [0, 0, 0, 0, 0, 0, 0, 0, 0],
   [0, 0, 0, 0, 0, 0, 0, 0, 0]]

/-- Observation matrix, integer valued as in the source. -/
def listHz : List (List ℤ) :=
  [[1, 0, 0, 0, 0, 0, 0, 0, 0],
   [0, 0, 0, 1, 0, 0, 0, 0, 0],
   [0, 0, 0, 0, 0, 0, 1, 0, 0]]

/-- Scaled predicted covariance: 1e12 times F P0 F-transposed plus Q. -/
def listPz : List (List ℤ) :=
  [[40000040001, 4000200, 20000, 0, 0, 0, 0, 0, 0],
   [4000200, 400040000, 4000000, 0, 0, 0, 0, 0, 0],
   [20000, 4000000, 400000000, 0, 0, 0, 0, 0, 0],
   [0, 0, 0, 40000040001, 4000200, 20000, 0, 0, 0],
   [0, 0, 0, 4000200, 400040000, 4000000, 0, 0, 0],
   [0, 0, 0, 20000, 4000000, 400000000, 0, 0, 0],
   [0, 0, 0, 0, 0, 0, 40000040001, 4000200, 20000],
   [0, 0, 0, 0, 0, 0, 4000200, 400040000, 4000000],
   [0, 0, 0, 0, 0, 0, 20000, 4000000, 400000000]]

/-- Scaled innovation covariance: 1e12 times H P-predicted H-transposed
plus R. -/
def listSz : List (List ℤ) :=
  [[40100040001, 0, 0],
   [0, 40100040001, 0],
   [0, 0, 40100040001]]

/-- Scaled product of the predicted covariance with H-transposed. -/
def listPHz : List (List ℤ) :=
  [[40000040001, 0, 0],
   [4000200, 0, 0],
   [20000, 0, 0],
   [0, 40000040001, 0],
   [0, 4000200, 0],
   [0, 20000, 0],
   [0, 0, 40000040001],
   [0, 0, 4000200],
   [0, 0, 20000]]

/-- Integer control matrix at delta_t = 0: per-axis block [[0,0],[1,0],[0,1]]. -/
def listG0z : List (List ℤ) :=
  [[0, 0, 0, 0, 0, 0],
   [1, 0, 0, 0, 0, 0],
   [0, 1, 0, 0, 0, 0],
   [0, 0, 0, 0, 0, 0],
   [0, 0, 1, 0, 0, 0],
   [0, 0, 0, 1, 0, 0],
   [0, 0, 0, 0, 0, 0],
   [0, 0, 0, 0, 1, 0],
   [0, 0, 0, 0, 0, 1]]

/-- Integer block-diagonal matrix with per-axis block diag(0, 1, 1): the
value of G Gᵀ at delta_t = 0. -/
def listD0z : List (List ℤ) :=
  [[0, 0, 0, 0, 0, 0, 0, 0, 0],
   [0, 1, 0, 0, 0, 0, 0, 0, 0],
   [0, 0, 1, 0, 0, 0, 0, 0, 0],
   [0, 0, 0, 0, 0, 0, 0, 0, 0],
   [0, 0, 0, 0, 1, 0, 0, 0, 0],
   [0, 0, 0, 0, 0, 1, 0, 0, 0],
   [0, 0, 0, 0, 0, 0, 0, 0, 0],
   [0, 0, 0, 0, 0, 0, 0, 1, 0],
   [0, 0, 0, 0, 0, 0, 0, 0, 1]]

/-- Integer identity, the value of the expanded transition at delta_t = 0. -/
def listI9 : List (List ℤ) :=
  [[1, 0, 0, 0, 0, 0, 0, 0, 0],
   [0, 1, 0, 0, 0, 0, 0, 0, 0],
   [0, 0, 1, 0, 0, 0, 0, 0, 0],
   [0, 0, 0, 1, 0, 0, 0, 0, 0],
   [0, 0, 0, 0, 1, 0, 0, 0, 0],
   [0, 0, 0, 0, 0, 1, 0, 0, 0],
   [0, 0, 0, 0, 0, 0, 1, 0, 0],
   [0, 0, 0, 0, 0, 0, 0, 1, 0],
   [0, 0, 0, 0, 0, 0, 0, 0, 1]]

/-! ## Concrete data for the error-handling claims -/

/-- Observation matrix of the non-symmetric-R counterexample. -/
def cxH : Matrix (Fin 2) (Fin 1) ℚ := ofL 2 1 [[1], [0]]

/-- Non-symmetric measurement covariance accepted by the update step. -/
def cxR : Matrix (Fin 2) (Fin 2) ℚ := ofL 2 2 [[1, 5], [0, 1]]

/-- Non-symmetric process noise accepted by the predict step. -/
def cxQ : Matrix (Fin 2) (Fin 2) ℚ := ofL 2 2 [[0, 7], [0, 0]]

end Kalman

namespace Kalman

open Matrix

/-! ## Structure lemmas for make_nd -/

theorem concatOpt0_eq (a : Option (List (List ℚ))) (b : List (List ℚ)) :
    concatOpt0 a b = a.getD [] ++ b := by
  cases a <;> rfl

theorem length_zerosLike (m : List (List ℚ)) : (zerosLike m).length = m.length := by
  simp [zerosLike]

theorem getD_map_zero : ∀ (l : List ℚ) (b : ℕ), (l.map fun _ => (0 : ℚ)).getD b 0 = 0
  | [], _ => rfl
  | _ :: _, 0 => rfl
  | _ :: l, b + 1 => getD_map_zero l b

theorem entry_zerosLike : ∀ (m : List (List ℚ)) (a b : ℕ), entry (zerosLike m) a b = 0
  | [], _, _ => rfl
  | row :: _, 0, b => getD_map_zero row b
  | _ :: m, a + 1, b => entry_zerosLike m a b

theorem makeNdCol_succ (mtx : List (List ℚ)) (i n : ℕ) :
    makeNdCol mtx i (n + 1) =
      some (colD mtx i n ++ (if i = n then mtx else zerosLike mtx)) := by
  unfold makeNdCol
  rw [List.range_succ, List.foldl_append, List.foldl_cons, List.foldl_nil, concatOpt0_eq]
  rfl

theorem colD_succ (mtx : List (List ℚ)) (i n : ℕ) :
    colD mtx i (n + 1) = colD mtx i n ++ (if i = n then mtx else zerosLike mtx) := by
  show (makeNdCol mtx i (n + 1)).getD [] = _
  rw [makeNdCol_succ]
  rfl

theorem length_colD (mtx : List (List ℚ)) (i : ℕ) :
    ∀ n, (colD mtx i n).length = n * mtx.length
  | 0 => by rw [Nat.zero_mul]; rfl
  | n + 1 => by
    rw [colD_succ, List.length_append, length_colD mtx i n]
    by_cases h : i = n <;> simp [h, length_zerosLike, Nat.succ_mul]

theorem mem_colD_length {mtx : List (List ℚ)} {c : ℕ}
    (hc : ∀ row ∈ mtx, row.length = c) (i : ℕ) :
    ∀ n, ∀ row ∈ colD mtx i n, row.length = c
  | 0, row, hr => by simp [colD, makeNdCol] at hr
  | n + 1, row, hr => by
    rw [colD_succ] at hr
    rcases List.mem_append.1 hr with h | h
    · exact mem_colD_length hc i n row h
    · split at h
      · exact hc row h
      · obtain ⟨r0, hr0, rfl⟩ := List.mem_map.1 h
        simp [hc r0 hr0]

theorem colD_getD {mtx : List (List ℚ)} (i : ℕ) :
    ∀ n p, p < n * mtx.length →
      (colD mtx i n).getD p [] =
        (if i = p / mtx.length then mtx else zerosLike mtx).getD (p % mtx.length) []
  | 0, p, hp => by simp at hp
  | n + 1, p, hp => by
    rw [colD_succ]
    by_cases h : p < n * mtx.length
    · rw [List.getD_append _ _ _ _ (by rw [length_colD]; exact h)]
      exact colD_getD i n p h
    · have hp' : p < n * mtx.length + mtx.length := by
        rw [Nat.succ_mul] at hp; exact hp
      have hlen : (colD mtx i n).length ≤ p := by rw [length_colD]; omega
      rw [List.getD_append_right _ _ _ _ hlen, length_colD]
      obtain ⟨a, ha, rfl⟩ : ∃ a, a < mtx.length ∧ p = mtx.length * n + a :=
        ⟨p - n * mtx.length, by omega, by rw [Nat.mul_comm]; omega⟩
      have hr : 0 < mtx.length := by omega
      have hdiv : (mtx.length * n + a) / mtx.length = n := by
        rw [Nat.mul_add_div hr, Nat.div_eq_of_lt ha, Nat.add_zero]
      have hmod : (mtx.length * n + a) % mtx.length = a := by
        rw [Nat.mul_add_mod, Nat.mod_eq_of_lt ha]
      rw [hdiv, hmod, Nat.mul_comm, Nat.add_sub_cancel_left]

theorem make_nd_eq_outD (mtx : List (List ℚ)) (n : ℕ) :
    make_nd mtx n = outD mtx n n := rfl

theorem outFold_succ (mtx : List (List ℚ)) (n k : ℕ) :
    outFold mtx n (k + 1) = some (concatOpt1 (outFold mtx n k) (colD mtx k n)) := by
  unfold outFold
  rw [List.range_succ, List.foldl_append]
  simp

theorem outD_one (mtx : List (List ℚ)) (n : ℕ) : outD mtx n 1 = colD mtx 0 n := by
  unfold outD
  rw [outFold_succ]
  rfl

theorem outD_succ (mtx : List (List ℚ)) (n k : ℕ) :
    outD mtx n (k + 1 + 1) =
      List.zipWith (· ++ ·) (outD mtx n (k + 1)) (colD mtx (k + 1) n) := by
  unfold outD
  rw [outFold_succ, outFold_succ]
  rfl

theorem length_outD (mtx : List (List ℚ)) (n : ℕ) :
    ∀ k, 1 ≤ k → (outD mtx n k).length = n * mtx.length
  | 1, _ => by rw [outD_one, length_colD]
  | k + 1 + 1, _ => by
    rw [outD_succ, List.length_zipWith, length_outD mtx n (k + 1) (by omega),
      length_colD, Nat.min_self]

theorem getD_zipWith_append {A B : List (List ℚ)} {p : ℕ}
    (hA : p < A.length) (hB : p < B.length) :
    (List.zipWith (· ++ ·) A B).getD p [] = A.getD p [] ++ B.getD p [] := by
  rw [List.getD_eq_getElem _ _ (by rw [List.length_zipWith]; omega),
    List.getElem_zipWith, List.getD_eq_getElem _ _ hA, List.getD_eq_getElem _ _ hB]

theorem outD_row_length {mtx : List (List ℚ)} {c : ℕ} {n : ℕ}
    (hc : ∀ row ∈ mtx, row.length = c) :
    ∀ k, 1 ≤ k → ∀ p, p < n * mtx.length → ((outD mtx n k).getD p []).length = k * c
  | 1, _, p, hp => by
    rw [outD_one, List.getD_eq_getElem _ _ (by rw [length_colD]; exact hp), Nat.one_mul]
    exact mem_colD_length hc 0 n _ (List.getElem_mem _)
  | k + 1 + 1, _, p, hp => by
    rw [outD_succ,
      getD_zipWith_append (by rw [length_outD mtx n (k + 1) (by omega)]; exact hp)
        (by rw [length_colD]; exact hp),
      List.length_append, outD_row_length hc (k + 1) (by omega) p hp,
      List.getD_eq_getElem _ _ (by rw [length_colD]; exact hp)]
    have := mem_colD_length hc (k + 1) n _ (List.getElem_mem
      (by rw [length_colD]; exact hp))
    rw [this]
    ring

theorem outD_entry {mtx : List (List ℚ)} {c : ℕ} {n : ℕ} (hcpos : 0 < c)
    (hc : ∀ row ∈ mtx, row.length = c) :
    ∀ k, 1 ≤ k → ∀ p q, p < n * mtx.length → q < k * c →
      entry (outD mtx n k) p q = entry (colD mtx (q / c) n) p (q % c)
  | 1, _, p, q, hp, hq => by
    rw [Nat.one_mul] at hq
    rw [outD_one, entry, entry, Nat.div_eq_of_lt hq, Nat.mod_eq_of_lt hq]
  | k + 1 + 1, _, p, q, hp, hq => by
    rw [entry, outD_succ,
      getD_zipWith_append (by rw [length_outD mtx n (k + 1) (by omega)]; exact hp)
        (by rw [length_colD]; exact hp)]
    by_cases h : q < (k + 1) * c
    · rw [List.getD_append _ _ _ _ (by rw [outD_row_length hc (k + 1) (by omega) p hp]; exact h)]
      exact outD_entry hcpos hc (k + 1) (by omega) p q hp h
    · have hq' : q < (k + 1) * c + c := by rw [Nat.succ_mul] at hq; exact hq
      rw [List.getD_append_right _ _ _ _
        (by rw [outD_row_length hc (k + 1) (by omega) p hp]; omega),
        outD_row_length hc (k + 1) (by omega) p hp]
      obtain ⟨b, hb, rfl⟩ : ∃ b, b < c ∧ q = c * (k + 1) + b :=
        ⟨q - (k + 1) * c, by omega, by rw [Nat.mul_comm]; omega⟩
      have hdiv : (c * (k + 1) + b) / c = k + 1 := by
        rw [Nat.mul_add_div hcpos, Nat.div_eq_of_lt hb, Nat.add_zero]
      have hmod : (c * (k + 1) + b) % c = b := by
        rw [Nat.mul_add_mod, Nat.mod_eq_of_lt hb]
      rw [hdiv, hmod, Nat.mul_comm, Nat.add_sub_cancel_left, entry]

/-! ## Explicit forms of the expanded builder outputs -/

theorem transition_list (t : ℚ) : make_nd (transitionBase t) 3 =
    [[1, t, 0.5 * t * t, 0, 0, 0, 0, 0, 0],
     [0, 1, t, 0, 0, 0, 0, 0, 0],
     [0, 0, 1, 0, 0, 0, 0, 0, 0],
     [0, 0, 0, 1, t, 0.5 * t * t, 0, 0, 0],
     [0, 0, 0, 0, 1, t, 0, 0, 0],
     [0, 0, 0, 0, 0, 1, 0, 0, 0],
     [0, 0, 0, 0, 0, 0, 1, t, 0.5 * t * t],
     [0, 0, 0, 0, 0, 0, 0, 1, t],
     [0, 0, 0, 0, 0, 0, 0, 0, 1]] := rfl

theorem control_list (t : ℚ) : make_nd (controlBase t) 3 =
    [[t, 0.5 * t * t, 0, 0, 0, 0],
     [1, t, 0, 0, 0, 0],
     [0, 1, 0, 0, 0, 0],
     [0, 0, t, 0.5 * t * t, 0, 0],
     [0, 0, 1, t, 0, 0],
     [0, 0, 0, 1, 0, 0],
     [0, 0, 0, 0, t, 0.5 * t * t],
     [0, 0, 0, 0, 1, t],
     [0, 0, 0, 0, 0, 1]] := rfl

theorem uncertainty_list (s : ℚ) : make_nd (uncertaintyBase s) 3 =
    [[s ^ 2, 0, 0, 0, 0, 0, 0, 0, 0],
     [0, 0, 0, 0, 0, 0, 0, 0, 0],
     [0, 0, 0, 0, 0, 0, 0, 0, 0],
     [0, 0, 0, s ^ 2, 0, 0, 0, 0, 0],
     [0, 0, 0, 0, 0, 0, 0, 0, 0],
     [0, 0, 0, 0, 0, 0, 0, 0, 0],
     [0, 0, 0, 0, 0, 0, s ^ 2, 0, 0],
     [0, 0, 0, 0, 0, 0, 0, 0, 0],
     [0, 0, 0, 0, 0, 0, 0, 0, 0]] := rfl

/-! ## Invariant lemmas for the recursion -/

theorem posSemidef_congruence {n m : ℕ} {P : Matrix (Fin n) (Fin n) ℚ}
    (hP : P.PosSemidef) (A : Matrix (Fin m) (Fin n) ℚ) :
    (A * P * Aᵀ).PosSemidef := by
  have h := hP.mul_mul_conjTranspose_same A
  rwa [conjTranspose_eq_transpose_of_trivial] at h

theorem posSemidef_transpose_eq {n : ℕ} {P : Matrix (Fin n) (Fin n) ℚ}
    (hP : P.PosSemidef) : Pᵀ = P := by
  rw [← conjTranspose_eq_transpose_of_trivial]
  exact hP.isHermitian

theorem npLinalgInv_eq {m : ℕ} (S : Matrix (Fin m) (Fin m) ℚ) (h : S.det ≠ 0) :
    npLinalgInv S = .ok S⁻¹ := by
  unfold npLinalgInv
  rw [if_neg h, Matrix.inv_def, Ring.inverse_eq_inv]

theorem npLinalgInv_singular {m : ℕ} (S : Matrix (Fin m) (Fin m) ℚ) (h : S.det = 0) :
    npLinalgInv S = .error .singularInnovationCovariance := by
  unfold npLinalgInv
  rw [if_pos h]

theorem update_eq_ok {n m : ℕ} (H : Matrix (Fin m) (Fin n) ℚ) (z : Fin m → ℚ)
    (R : Matrix (Fin m) (Fin m) ℚ) (x : Fin n → ℚ) (P : Matrix (Fin n) (Fin n) ℚ)
    (hdet : (H * P * Hᵀ + R).det ≠ 0) :
    update H z R x P =
      .ok ⟨x + (P * Hᵀ * (H * P * Hᵀ + R)⁻¹) *ᵥ (z - H *ᵥ x),
        (1 - P * Hᵀ * (H * P * Hᵀ + R)⁻¹ * H) * P *
            (1 - P * Hᵀ * (H * P * Hᵀ + R)⁻¹ * H)ᵀ +
          P * Hᵀ * (H * P * Hᵀ + R)⁻¹ * R * (P * Hᵀ * (H * P * Hᵀ + R)⁻¹)ᵀ⟩ := by
  unfold update
  rw [npLinalgInv_eq _ hdet]

theorem predict_posSemidef {n c : ℕ} {F : Matrix (Fin n) (Fin n) ℚ}
    {G : Matrix (Fin n) (Fin c) ℚ} {Q : Matrix (Fin n) (Fin n) ℚ} {u : Fin c → ℚ}
    {x : Fin n → ℚ} {P : Matrix (Fin n) (Fin n) ℚ}
    (hP : P.PosSemidef) (hQ : Q.PosSemidef) :
    (predict F G Q u x P).P.PosSemidef :=
  (posSemidef_congruence hP F).add hQ

theorem update_posSemidef {n m : ℕ} {H : Matrix (Fin m) (Fin n) ℚ} {z : Fin m → ℚ}
    {R : Matrix (Fin m) (Fin m) ℚ} {x : Fin n → ℚ} {P : Matrix (Fin n) (Fin n) ℚ}
    (hP : P.PosSemidef) (hR : R.PosSemidef) {s2 : KState n}
    (h : update H z R x P = .ok s2) : s2.P.PosSemidef := by
  unfold update at h
  cases hinv : npLinalgInv (H * P * Hᵀ + R) with
  | error e => rw [hinv] at h; cases h
  | ok Sinv =>
    rw [hinv] at h
    injection h with h
    subst h
    exact (posSemidef_congruence hP _).add (posSemidef_congruence hR _)

theorem runStep_update_error {n c m : ℕ} {H : Matrix (Fin m) (Fin n) ℚ} {z : Fin m → ℚ}
    {R : Matrix (Fin m) (Fin m) ℚ} {s : KState n} {e : KError}
    (h : update H z R s.x s.P = .error e) :
    runStep (KStep.updateStep H z R : KStep n c m) s = s := by
  show (match update H z R s.x s.P with
    | .ok s2 => s2
    | .error _ => s) = s
  rw [h]

theorem runStep_posSemidef {n c m : ℕ} {st : KStep n c m} {s : KState n}
    (hP : s.P.PosSemidef) (hst : stepCov st) :
    (runStep st s).P.PosSemidef := by
  cases st with
  | predictStep F G Q u => exact predict_posSemidef hP hst
  | updateStep H z R =>
    show (match update H z R s.x s.P with
      | .ok s2 => s2
      | .error _ => s).P.PosSemidef
    cases h : update H z R s.x s.P with
    | ok s2 => exact update_posSemidef hP hst h
    | error e => exact hP

theorem run_posSemidef {n c m : ℕ} :
    ∀ (l : List (KStep n c m)) (s : KState n),
      s.P.PosSemidef → (∀ st ∈ l, stepCov st) → (run l s).P.PosSemidef
  | [], _, hP, _ => hP
  | st :: l, s, hP, hl => by
    rw [run, List.foldl_cons]
    exact run_posSemidef l _ (runStep_posSemidef hP (hl st (by simp)))
      (fun st2 h2 => hl st2 (by simp [h2]))

/-! ## Generic transfer lemmas between rational and integer matrices -/

theorem getD_map_cast_mul (d : ℚ) : ∀ (l : List ℤ) (q : ℕ),
    (l.map fun k : ℤ => (k : ℚ) * d).getD q 0 = (l.getD q 0 : ℤ) * d
  | [], _ => by simp
  | _ :: _, 0 => rfl
  | _ :: l, q + 1 => getD_map_cast_mul d l q

theorem entry_map_cast_mul (d : ℚ) : ∀ (Lz : List (List ℤ)) (p q : ℕ),
    entry (Lz.map (List.map fun k : ℤ => (k : ℚ) * d)) p q = (entryZ Lz p q : ℤ) * d
  | [], _, _ => by simp [entry, entryZ]
  | row :: _, 0, q => getD_map_cast_mul d row q
  | _ :: m, p + 1, q => entry_map_cast_mul d m p q

theorem ofL_map_smul (a b : ℕ) (d : ℚ) (Lz : List (List ℤ)) :
    ofL a b (Lz.map (List.map fun k : ℤ => (k : ℚ) * d)) =
      d • (ofLZ a b Lz).map (fun z : ℤ => (z : ℚ)) := by
  ext i j
  show entry (Lz.map (List.map fun k : ℤ => (k : ℚ) * d)) i j = _
  rw [entry_map_cast_mul]
  simp [ofLZ, Matrix.map_apply, Matrix.smul_apply, mul_comm]

theorem mapCast_mul {l m n : ℕ} (A : Matrix (Fin l) (Fin m) ℤ) (B : Matrix (Fin m) (Fin n) ℤ) :
    A.map (fun z : ℤ => (z : ℚ)) * B.map (fun z : ℤ => (z : ℚ)) =
      (A * B).map (fun z : ℤ => (z : ℚ)) := by
  have h : (A * B).map (⇑(Int.castRingHom ℚ)) =
      A.map (⇑(Int.castRingHom ℚ)) * B.map (⇑(Int.castRingHom ℚ)) := Matrix.map_mul
  simpa using h.symm

theorem mapCast_add {a b : ℕ} (A B : Matrix (Fin a) (Fin b) ℤ) :
    A.map (fun z : ℤ => (z : ℚ)) + B.map (fun z : ℤ => (z : ℚ)) =
      (A + B).map (fun z : ℤ => (z : ℚ)) := by
  ext i j
  simp [Matrix.map_apply]

theorem mapCast_int_smul {a b : ℕ} (k : ℤ) (M : Matrix (Fin a) (Fin b) ℤ) :
    ((k • M).map fun z : ℤ => (z : ℚ)) = (k : ℚ) • M.map (fun z : ℤ => (z : ℚ)) := by
  ext i j
  simp [Matrix.map_apply, Matrix.smul_apply]

theorem smul_cast_mul (a b : ℚ) {l m n : ℕ} (A : Matrix (Fin l) (Fin m) ℤ)
    (B : Matrix (Fin m) (Fin n) ℤ) :
    (a • A.map (fun z : ℤ => (z : ℚ))) * (b • B.map (fun z : ℤ => (z : ℚ))) =
      (a * b) • (A * B).map (fun z : ℤ => (z : ℚ)) := by
  rw [Matrix.smul_mul, Matrix.mul_smul, smul_smul, mapCast_mul]

theorem smul_cast_transpose (a : ℚ) {l m : ℕ} (A : Matrix (Fin l) (Fin m) ℤ) :
    (a • A.map (fun z : ℤ => (z : ℚ)))ᵀ = a • (Aᵀ).map (fun z : ℤ => (z : ℚ)) := by
  rw [Matrix.transpose_smul, ← Matrix.transpose_map]

/-! ## Bridges from the scenario matrices to their integer-scaled copies -/

theorem scenF_eq : scenF = (1 / 20000 : ℚ) • (ofLZ 9 9 listFz).map (fun z : ℤ => (z : ℚ)) := by
  have hl : make_nd (transitionBase (1 / 100)) 3 =
      listFz.map (List.map fun k : ℤ => (k : ℚ) * (1 / 20000)) := by
    rw [transition_list]
    norm_num [listFz]
  show ofL 9 9 (make_nd (transitionBase (1 / 100)) 3) = _
  rw [hl, ofL_map_smul]

theorem scenG_eq : scenG = (1 / 20000 : ℚ) • (ofLZ 9 6 listGz).map (fun z : ℤ => (z : ℚ)) := by
  have hl : make_nd (controlBase (1 / 100)) 3 =
      listGz.map (List.map fun k : ℤ => (k : ℚ) * (1 / 20000)) := by
    rw [control_list]
    norm_num [listGz]
  show ofL 9 6 (make_nd (controlBase (1 / 100)) 3) = _
  rw [hl, ofL_map_smul]

theorem scenP0_eq : get_starting_uncertainty 0.2 =
    (1 / 25 : ℚ) • (ofLZ 9 9 listP0z).map (fun z : ℤ => (z : ℚ)) := by
  have hl : make_nd (uncertaintyBase 0.2) 3 =
      listP0z.map (List.map fun k : ℤ => (k : ℚ) * (1 / 25)) := by
    rw [uncertainty_list]
    norm_num [listP0z]
  show ofL 9 9 (make_nd (uncertaintyBase 0.2) 3) = _
  rw [hl, ofL_map_smul]

theorem scenH_eq : get_observation_matrix = (ofLZ 3 9 listHz).map (fun z : ℤ => (z : ℚ)) := by
  have hl : [[(1 : ℚ), 0, 0, 0, 0, 0, 0, 0, 0],
      [0, 0, 0, 1, 0, 0, 0, 0, 0],
      [0, 0, 0, 0, 0, 0, 1, 0, 0]] =
      listHz.map (List.map fun k : ℤ => (k : ℚ) * 1) := by
    norm_num [listHz]
  show ofL 3 9 _ = _
  rw [hl, ofL_map_smul, one_smul]

theorem scenR_eq : scenR =
    (1 / 1000000000000 : ℚ) •
      ((100000000 : ℤ) • (1 : Matrix (Fin 3) (Fin 3) ℤ)).map (fun z : ℤ => (z : ℚ)) := by
  rw [mapCast_int_smul, Matrix.map_one (fun z : ℤ => (z : ℚ)) (by simp) (by simp), smul_smul]
  ext i j
  by_cases h : i = j
  · simp only [scenR, Matrix.smul_apply, Matrix.one_apply, Matrix.of_apply, if_pos h]
    norm_num
  · simp [scenR, Matrix.one_apply, h]

theorem scenQ_eq : scenQ =
    (1 / 1000000000000 : ℚ) •
      (ofLZ 9 6 listGz * (ofLZ 9 6 listGz)ᵀ).map (fun z : ℤ => (z : ℚ)) := by
  show (1 / 50 : ℚ) ^ 2 • (scenG * scenGᵀ) = _
  rw [scenG_eq, smul_cast_transpose, smul_cast_mul, smul_smul]
  norm_num

theorem scenPredictP_eq : scenPredict.P =
    (1 / 1000000000000 : ℚ) • (ofLZ 9 9 listPz).map (fun z : ℤ => (z : ℚ)) := by
  show scenF * get_starting_uncertainty 0.2 * scenFᵀ + scenQ = _
  rw [scenF_eq, scenP0_eq, scenQ_eq, smul_cast_mul, smul_cast_transpose, smul_cast_mul,
    show (1 / 20000 * (1 / 25) * (1 / 20000) : ℚ) = (1 / 1000000000000) * 100 from by
      norm_num,
    ← smul_smul,
    show (100 : ℚ) = ((100 : ℤ) : ℚ) from by norm_num,
    ← mapCast_int_smul, ← smul_add, mapCast_add,
    show (100 : ℤ) • (ofLZ 9 9 listFz * ofLZ 9 9 listP0z * (ofLZ 9 9 listFz)ᵀ) +
        ofLZ 9 6 listGz * (ofLZ 9 6 listGz)ᵀ = ofLZ 9 9 listPz from by decide]

theorem scenS_eq :
    get_observation_matrix * scenPredict.P * get_observation_matrixᵀ + scenR =
      (1 / 1000000000000 : ℚ) • (ofLZ 3 3 listSz).map (fun z : ℤ => (z : ℚ)) := by
  rw [scenH_eq, scenPredictP_eq, scenR_eq, Matrix.mul_smul, Matrix.smul_mul,
    ← Matrix.transpose_map, mapCast_mul, mapCast_mul, ← smul_add, mapCast_add,
    show ofLZ 3 9 listHz * ofLZ 9 9 listPz * (ofLZ 3 9 listHz)ᵀ +
        (100000000 : ℤ) • (1 : Matrix (Fin 3) (Fin 3) ℤ) = ofLZ 3 3 listSz from by decide]

theorem scenS_det_ne :
    (get_observation_matrix * scenPredict.P * get_observation_matrixᵀ + scenR).det ≠ 0 := by
  rw [scenS_eq, Matrix.det_smul]
  have h1 : (ofLZ 3 3 listSz).det = 40100040001 ^ 3 := by decide
  have h2 : ((ofLZ 3 3 listSz).map (fun z : ℤ => (z : ℚ))).det =
      (((ofLZ 3 3 listSz).det : ℤ) : ℚ) := by
    have h3 := (Int.castRingHom ℚ).map_det (ofLZ 3 3 listSz)
    simpa using h3.symm
  rw [h2, h1]
  norm_num

theorem scenSinv_eq :
    ((1 / 1000000000000 : ℚ) • (ofLZ 3 3 listSz).map (fun z : ℤ => (z : ℚ)))⁻¹ =
      (1000000000000 / 40100040001 : ℚ) • 1 := by
  apply Matrix.inv_eq_right_inv
  rw [Matrix.smul_mul, Matrix.mul_smul, Matrix.mul_one, smul_smul]
  have h3 : (ofLZ 3 3 listSz).map (fun z : ℤ => (z : ℚ)) =
      (40100040001 : ℚ) • (1 : Matrix (Fin 3) (Fin 3) ℚ) := by
    rw [show ofLZ 3 3 listSz = (40100040001 : ℤ) • 1 from by decide, mapCast_int_smul,
      Matrix.map_one (fun z : ℤ => (z : ℚ)) (by simp) (by simp)]
    norm_num
  rw [h3, smul_smul,
    show (1 / 1000000000000 * (1000000000000 / 40100040001) * 40100040001 : ℚ) = 1 from by
      norm_num,
    one_smul]

theorem mapCast_mulVec {l m : ℕ} (A : Matrix (Fin l) (Fin m) ℤ) (v : Fin m → ℤ) :
    A.map (fun z : ℤ => (z : ℚ)) *ᵥ (fun i => ((v i : ℤ) : ℚ)) =
      fun i => (((A *ᵥ v) i : ℤ) : ℚ) := by
  funext i
  show dotProduct _ _ = _
  simp only [Matrix.map_apply, Matrix.dotProduct, Matrix.mulVec]
  push_cast
  rfl

theorem scenx0_eq : get_starting_position (0, 0, 0.6) =
    (1 / 5 : ℚ) • fun i => (((![0, 0, 0, 0, 0, 0, 3, 0, 0] : Fin 9 → ℤ) i : ℤ) : ℚ) := by
  funext i
  fin_cases i <;> norm_num [get_starting_position]

theorem scenX_eq : scenPredict.x = ![0, 0, 0, 0, 0, 0, 3 / 5, 0, 0] := by
  show scenF *ᵥ get_starting_position (0, 0, 0.6) + scenG *ᵥ 0 = _
  rw [Matrix.mulVec_zero, add_zero, scenF_eq, scenx0_eq, Matrix.smul_mulVec_assoc,
    Matrix.mulVec_smul, mapCast_mulVec,
    show (ofLZ 9 9 listFz *ᵥ ![0, 0, 0, 0, 0, 0, 3, 0, 0] : Fin 9 → ℤ) =
      ![0, 0, 0, 0, 0, 0, 60000, 0, 0] from by decide,
    smul_smul]
  funext i
  fin_cases i <;> norm_num

theorem scenInno_eq :
    scenz - get_observation_matrix *ᵥ ![0, 0, 0, 0, 0, 0, 3 / 5, 0, 0] = ![0, 0, 1 / 50] := by
  have hv : (![0, 0, 0, 0, 0, 0, 3 / 5, 0, 0] : Fin 9 → ℚ) =
      (1 / 5 : ℚ) • fun i => (((![0, 0, 0, 0, 0, 0, 3, 0, 0] : Fin 9 → ℤ) i : ℤ) : ℚ) := by
    funext i
    fin_cases i <;> norm_num
  rw [hv, scenH_eq, Matrix.mulVec_smul, mapCast_mulVec,
    show (ofLZ 3 9 listHz *ᵥ ![0, 0, 0, 0, 0, 0, 3, 0, 0] : Fin 3 → ℤ) = ![0, 0, 3] from by
      decide]
  funext i
  fin_cases i <;> norm_num [scenz]

theorem scenK_eq : scenPredict.P * get_observation_matrixᵀ *
    (get_observation_matrix * scenPredict.P * get_observation_matrixᵀ + scenR)⁻¹ =
    (1 / 40100040001 : ℚ) • (ofLZ 9 3 listPHz).map (fun z : ℤ => (z : ℚ)) := by
  rw [scenS_eq, scenSinv_eq, scenPredictP_eq, scenH_eq, ← Matrix.transpose_map,
    Matrix.smul_mul, mapCast_mul,
    show ofLZ 9 9 listPz * (ofLZ 3 9 listHz)ᵀ = ofLZ 9 3 listPHz from by decide,
    Matrix.mul_smul, Matrix.mul_one, smul_smul,
    show ((1000000000000 / 40100040001 : ℚ) * (1 / 1000000000000)) = 1 / 40100040001 from by
      norm_num]

theorem scenVal_eq : (scenPredict.x +
      (scenPredict.P * get_observation_matrixᵀ *
        (get_observation_matrix * scenPredict.P * get_observation_matrixᵀ + scenR)⁻¹) *ᵥ
      (scenz - get_observation_matrix *ᵥ scenPredict.x)) 6 =
    1243001240031 / 2005002000050 := by
  have hvec : (![0, 0, 1 / 50] : Fin 3 → ℚ) =
      (1 / 50 : ℚ) • fun i => (((![0, 0, 1] : Fin 3 → ℤ) i : ℤ) : ℚ) := by
    funext i
    fin_cases i <;> norm_num
  rw [scenK_eq, scenX_eq, scenInno_eq, hvec, Matrix.smul_mulVec_assoc, Matrix.mulVec_smul,
    mapCast_mulVec,
    show (ofLZ 9 3 listPHz *ᵥ ![0, 0, 1] : Fin 9 → ℤ) =
      ![0, 0, 0, 0, 0, 0, 40000040001, 4000200, 20000] from by decide,
    show (6 : Fin 9) = (⟨6, by omega⟩ : Fin 9) from rfl]
  norm_num

/-! ## Helper lemmas for the delta_t = 0 edge case and the semigroup law -/

theorem control0_eq :
    get_control_matrix 0 = (ofLZ 9 6 listG0z).map (fun z : ℤ => (z : ℚ)) := by
  have hl : make_nd (controlBase 0) 3 = listG0z.map (List.map fun k : ℤ => (k : ℚ) * 1) := by
    rw [control_list]
    norm_num [listG0z]
  show ofL 9 6 (make_nd (controlBase 0) 3) = _
  rw [hl, ofL_map_smul, one_smul]

theorem transition0_eq : get_transition_matrix 0 = 1 := by
  have hl : make_nd (transitionBase 0) 3 = listI9.map (List.map fun k : ℤ => (k : ℚ) * 1) := by
    rw [transition_list]
    norm_num [listI9]
  show ofL 9 9 (make_nd (transitionBase 0) 3) = _
  rw [hl, ofL_map_smul, one_smul,
    show ofLZ 9 9 listI9 = (1 : Matrix (Fin 9) (Fin 9) ℤ) from by decide,
    Matrix.map_one (fun z : ℤ => (z : ℚ)) (by simp) (by simp)]

theorem gg0_eq : get_control_matrix 0 * (get_control_matrix 0)ᵀ =
    (ofLZ 9 9 listD0z).map (fun z : ℤ => (z : ℚ)) := by
  rw [control0_eq, ← Matrix.transpose_map, mapCast_mul,
    show ofLZ 9 6 listG0z * (ofLZ 9 6 listG0z)ᵀ = ofLZ 9 9 listD0z from by decide]

theorem transition_explicit (t : ℚ) : get_transition_matrix t = Matrix.of
    ![![1, t, 0.5 * t * t, 0, 0, 0, 0, 0, 0],
      ![0, 1, t, 0, 0, 0, 0, 0, 0],
      ![0, 0, 1, 0, 0, 0, 0, 0, 0],
      ![0, 0, 0, 1, t, 0.5 * t * t, 0, 0, 0],
      ![0, 0, 0, 0, 1, t, 0, 0, 0],
      ![0, 0, 0, 0, 0, 1, 0, 0, 0],
      ![0, 0, 0, 0, 0, 0, 1, t, 0.5 * t * t],
      ![0, 0, 0, 0, 0, 0, 0, 1, t],
      ![0, 0, 0, 0, 0, 0, 0, 0, 1]] := by
  rw [show get_transition_matrix t = ofL 9 9 (make_nd (transitionBase t) 3) from rfl,
    transition_list]
  ext i j
  fin_cases i <;> fin_cases j <;> rfl

/-! ## The claims -/

/-- **C1**: for every symmetric positive-semidefinite initial covariance and
every sequence of predict calls with symmetric PSD Q and update calls with
symmetric PSD R, the covariance stays symmetric and positive semidefinite
after every call of the sequence.  (Over exact arithmetic the statement
holds without the invertibility hypothesis of the claim: an update whose
innovation covariance is singular raises and leaves the state unchanged,
which preserves the invariant trivially, so the theorem is stronger than
the claim.) -/
theorem covariance_psd_invariant {n c m : ℕ} (l : List (KStep n c m)) (s : KState n)
    (hP : s.P.PosSemidef) (hl : ∀ st ∈ l, stepCov st) :
    ((run l s).P)ᵀ = (run l s).P ∧ (run l s).P.PosSemidef := by
  have h := run_posSemidef l s hP hl
  exact ⟨posSemidef_transpose_eq h, h⟩

/-- Witness for C1: a concrete two-call sequence from the identity
covariance, with Q = 0 and R = 1. -/
theorem covariance_psd_invariant_witness :
    ((⟨0, 1⟩ : KState 1).P.PosSemidef ∧
      (∀ st ∈ ([KStep.predictStep 1 1 0 0, KStep.updateStep 1 0 1] : List (KStep 1 1 1)),
        stepCov st)) ∧
    ((run ([KStep.predictStep 1 1 0 0, KStep.updateStep 1 0 1] : List (KStep 1 1 1))
        (⟨0, 1⟩ : KState 1)).P)ᵀ =
        (run ([KStep.predictStep 1 1 0 0, KStep.updateStep 1 0 1] : List (KStep 1 1 1))
          (⟨0, 1⟩ : KState 1)).P ∧
      (run ([KStep.predictStep 1 1 0 0, KStep.updateStep 1 0 1] : List (KStep 1 1 1))
        (⟨0, 1⟩ : KState 1)).P.PosSemidef := by
  have h1 : (⟨0, 1⟩ : KState 1).P.PosSemidef := Matrix.PosSemidef.one
  have h2 : ∀ st ∈ ([KStep.predictStep 1 1 0 0, KStep.updateStep 1 0 1] :
      List (KStep 1 1 1)), stepCov st := by
    intro st hst
    simp only [List.mem_cons, List.not_mem_nil, or_false] at hst
    rcases hst with rfl | rfl
    · exact Matrix.PosSemidef.zero
    · exact Matrix.PosSemidef.one
  exact ⟨⟨h1, h2⟩, covariance_psd_invariant _ _ h1 h2⟩

/-- **C2**: an update step with invertible innovation covariance
S = H P Hᵀ + R computes the gain K = P Hᵀ S⁻¹, the state x + K (z − H x)
and the Joseph-form covariance (I − K H) P (I − K H)ᵀ + K R Kᵀ. -/
theorem update_gain_joseph {n m : ℕ} (H : Matrix (Fin m) (Fin n) ℚ) (z : Fin m → ℚ)
    (R : Matrix (Fin m) (Fin m) ℚ) (x : Fin n → ℚ) (P : Matrix (Fin n) (Fin n) ℚ)
    (hdet : (H * P * Hᵀ + R).det ≠ 0) :
    update H z R x P =
      .ok ⟨x + (P * Hᵀ * (H * P * Hᵀ + R)⁻¹) *ᵥ (z - H *ᵥ x),
        (1 - P * Hᵀ * (H * P * Hᵀ + R)⁻¹ * H) * P *
            (1 - P * Hᵀ * (H * P * Hᵀ + R)⁻¹ * H)ᵀ +
          P * Hᵀ * (H * P * Hᵀ + R)⁻¹ * R * (P * Hᵀ * (H * P * Hᵀ + R)⁻¹)ᵀ⟩ :=
  update_eq_ok H z R x P hdet

/-- Witness for C2 at the one-dimensional input H = P = 1, R = 0, x = 0, z = 0. -/
theorem update_gain_joseph_witness :
    (((1 : Matrix (Fin 1) (Fin 1) ℚ) * 1 * (1 : Matrix (Fin 1) (Fin 1) ℚ)ᵀ + 0).det ≠ 0) ∧
    (update (1 : Matrix (Fin 1) (Fin 1) ℚ) 0 0 0 1).toOption.isSome = true := by
  have hdet : ((1 : Matrix (Fin 1) (Fin 1) ℚ) * 1 * (1 : Matrix (Fin 1) (Fin 1) ℚ)ᵀ +
      0).det ≠ 0 := by
    norm_num [Matrix.det_fin_one, Matrix.one_apply]
  refine ⟨hdet, ?_⟩
  rw [update_gain_joseph 1 0 0 0 1 hdet]
  rfl

/-- **C3**: one predict step computes exactly x to F x + G u and P to
F P Fᵀ + Q. -/
theorem predict_formula {n c : ℕ} (F : Matrix (Fin n) (Fin n) ℚ)
    (G : Matrix (Fin n) (Fin c) ℚ) (Q : Matrix (Fin n) (Fin n) ℚ) (u : Fin c → ℚ)
    (x : Fin n → ℚ) (P : Matrix (Fin n) (Fin n) ℚ) :
    predict F G Q u x P = ⟨F *ᵥ x + G *ᵥ u, F * P * Fᵀ + Q⟩ := rfl

/-- **C4**: for a rectangular generator output and any axis count N at least
one, make_nd yields a matrix of shape (N rows) times (N cols) whose i-th
diagonal block equals the generator output exactly and whose entries outside
the diagonal blocks are zero. -/
theorem make_nd_block_diagonal (mtx : List (List ℚ)) (n c : ℕ)
    (hn : 1 ≤ n) (hc : ∀ row ∈ mtx, row.length = c) :
    (make_nd mtx n).length = n * mtx.length ∧
    (∀ row ∈ make_nd mtx n, row.length = n * c) ∧
    (∀ i a b, i < n → a < mtx.length → b < c →
      entry (make_nd mtx n) (i * mtx.length + a) (i * c + b) = entry mtx a b) ∧
    (∀ i j a b, i < n → j < n → a < mtx.length → b < c → i ≠ j →
      entry (make_nd mtx n) (i * mtx.length + a) (j * c + b) = 0) := by
  rw [make_nd_eq_outD]
  refine ⟨length_outD mtx n n hn, ?_, ?_, ?_⟩
  · intro row hrow
    obtain ⟨p, hp, hrow2⟩ := List.getElem_of_mem hrow
    rw [← hrow2, ← List.getD_eq_getElem _ [] hp]
    rw [length_outD mtx n n hn] at hp
    exact outD_row_length hc n hn p hp
  · intro i a b hi ha hb
    have hcpos : 0 < c := by omega
    have hp : i * mtx.length + a < n * mtx.length := by
      have h2 : (i + 1) * mtx.length ≤ n * mtx.length := Nat.mul_le_mul_right _ hi
      have h3 : i * mtx.length + a < (i + 1) * mtx.length := by rw [Nat.succ_mul]; omega
      omega
    have hq : i * c + b < n * c := by
      have h2 : (i + 1) * c ≤ n * c := Nat.mul_le_mul_right _ hi
      have h3 : i * c + b < (i + 1) * c := by rw [Nat.succ_mul]; omega
      omega
    rw [outD_entry hcpos hc n hn _ _ hp hq]
    have hdc : (i * c + b) / c = i := by
      rw [Nat.mul_comm i c, Nat.mul_add_div hcpos, Nat.div_eq_of_lt hb, Nat.add_zero]
    have hmc : (i * c + b) % c = b := by
      rw [Nat.mul_comm i c, Nat.mul_add_mod, Nat.mod_eq_of_lt hb]
    rw [hdc, hmc, entry, colD_getD i n _ hp]
    have hrpos : 0 < mtx.length := by omega
    have hdr : (i * mtx.length + a) / mtx.length = i := by
      rw [Nat.mul_comm i mtx.length, Nat.mul_add_div hrpos, Nat.div_eq_of_lt ha,
        Nat.add_zero]
    have hmr : (i * mtx.length + a) % mtx.length = a := by
      rw [Nat.mul_comm i mtx.length, Nat.mul_add_mod, Nat.mod_eq_of_lt ha]
    rw [hdr, hmr, if_pos rfl]
    rfl
  · intro i j a b hi hj ha hb hij
    have hcpos : 0 < c := by omega
    have hp : i * mtx.length + a < n * mtx.length := by
      have h2 : (i + 1) * mtx.length ≤ n * mtx.length := Nat.mul_le_mul_right _ hi
      have h3 : i * mtx.length + a < (i + 1) * mtx.length := by rw [Nat.succ_mul]; omega
      omega
    have hq : j * c + b < n * c := by
      have h2 : (j + 1) * c ≤ n * c := Nat.mul_le_mul_right _ hj
      have h3 : j * c + b < (j + 1) * c := by rw [Nat.succ_mul]; omega
      omega
    rw [outD_entry hcpos hc n hn _ _ hp hq]
    have hdc : (j * c + b) / c = j := by
      rw [Nat.mul_comm j c, Nat.mul_add_div hcpos, Nat.div_eq_of_lt hb, Nat.add_zero]
    have hmc : (j * c + b) % c = b := by
      rw [Nat.mul_comm j c, Nat.mul_add_mod, Nat.mod_eq_of_lt hb]
    rw [hdc, hmc, entry, colD_getD j n _ hp]
    have hrpos : 0 < mtx.length := by omega
    have hdr : (i * mtx.length + a) / mtx.length = i := by
      rw [Nat.mul_comm i mtx.length, Nat.mul_add_div hrpos, Nat.div_eq_of_lt ha,
        Nat.add_zero]
    have hmr : (i * mtx.length + a) % mtx.length = a := by
      rw [Nat.mul_comm i mtx.length, Nat.mul_add_mod, Nat.mod_eq_of_lt ha]
    rw [hdr, hmr, if_neg (Ne.symm hij)]
    exact entry_zerosLike mtx a b

/-- Witness for C4 at the generator output [[1, 2], [3, 4]] and N = 2. -/
theorem make_nd_block_diagonal_witness :
    ((1 ≤ 2) ∧ ∀ row ∈ [[(1 : ℚ), 2], [3, 4]], row.length = 2) ∧
    ((make_nd [[(1 : ℚ), 2], [3, 4]] 2).length = 2 * [[(1 : ℚ), 2], [3, 4]].length ∧
     (∀ row ∈ make_nd [[(1 : ℚ), 2], [3, 4]] 2, row.length = 2 * 2) ∧
     (∀ i a b, i < 2 → a < [[(1 : ℚ), 2], [3, 4]].length → b < 2 →
       entry (make_nd [[(1 : ℚ), 2], [3, 4]] 2) (i * [[(1 : ℚ), 2], [3, 4]].length + a)
         (i * 2 + b) = entry [[(1 : ℚ), 2], [3, 4]] a b) ∧
     (∀ i j a b, i < 2 → j < 2 → a < [[(1 : ℚ), 2], [3, 4]].length → b < 2 → i ≠ j →
       entry (make_nd [[(1 : ℚ), 2], [3, 4]] 2) (i * [[(1 : ℚ), 2], [3, 4]].length + a)
         (j * 2 + b) = 0)) := by
  have h1 : (1 : ℕ) ≤ 2 := by omega
  have h2 : ∀ row ∈ [[(1 : ℚ), 2], [3, 4]], row.length = 2 := by
    intro row hrow
    fin_cases hrow <;> rfl
  exact ⟨⟨h1, h2⟩, make_nd_block_diagonal _ 2 2 h1 h2⟩

/-- **C5**: an update whose innovation covariance is singular fails with the
explicit singular-innovation-covariance error (no NaN state), and the run
semantics keeps the prior pair (x, P) unchanged. -/
theorem update_singular_fails {n c m : ℕ} (H : Matrix (Fin m) (Fin n) ℚ) (z : Fin m → ℚ)
    (R : Matrix (Fin m) (Fin m) ℚ) (s : KState n)
    (hdet : (H * s.P * Hᵀ + R).det = 0) :
    update H z R s.x s.P = .error .singularInnovationCovariance ∧
    runStep (KStep.updateStep H z R : KStep n c m) s = s := by
  have h1 : update H z R s.x s.P = .error .singularInnovationCovariance := by
    unfold update
    rw [npLinalgInv_singular _ hdet]
  exact ⟨h1, runStep_update_error h1⟩

/-- Witness for C5: P = 0 and R = 0 make S = 0 singular (the invertibility
failure scenario of the spec). -/
theorem update_singular_fails_witness :
    (((1 : Matrix (Fin 1) (Fin 1) ℚ) * (⟨fun _ => 1, 0⟩ : KState 1).P *
        (1 : Matrix (Fin 1) (Fin 1) ℚ)ᵀ + 0).det = 0) ∧
    (update (1 : Matrix (Fin 1) (Fin 1) ℚ) 0 0 (⟨fun _ => 1, 0⟩ : KState 1).x
        (⟨fun _ => 1, 0⟩ : KState 1).P = .error .singularInnovationCovariance ∧
      runStep (KStep.updateStep 1 0 0 : KStep 1 1 1) ⟨fun _ => 1, 0⟩ =
        ⟨fun _ => 1, 0⟩) := by
  have hdet : ((1 : Matrix (Fin 1) (Fin 1) ℚ) * (⟨fun _ => 1, 0⟩ : KState 1).P *
      (1 : Matrix (Fin 1) (Fin 1) ℚ)ᵀ + 0).det = 0 := by
    norm_num [Matrix.det_fin_one, Matrix.add_apply]
  exact ⟨hdet, update_singular_fails 1 0 0 ⟨fun _ => 1, 0⟩ hdet⟩

/-- **C6** counterexample: at delta_t = 0 the control matrix is not the zero
matrix (its per-axis block keeps the constant rows [1, 0] and [0, 1]), so
the process noise at accelStd = 1 is nonzero as well: the claim that both
are zero at delta_t = 0 is false on the code. -/
theorem dt_zero_claim_false : get_control_matrix 0 ≠ 0 ∧ get_process_noise 0 1 ≠ 0 := by
  constructor
  · intro h
    have h2 := congrFun (congrFun h ⟨1, by omega⟩) ⟨0, by omega⟩
    rw [control0_eq] at h2
    norm_num [ofLZ, entryZ, listG0z, Matrix.map_apply] at h2
  · intro h
    have h2 := congrFun (congrFun h ⟨1, by omega⟩) ⟨1, by omega⟩
    rw [show get_process_noise 0 1 =
        (1 : ℚ) ^ 2 • (get_control_matrix 0 * (get_control_matrix 0)ᵀ) from rfl,
      gg0_eq] at h2
    norm_num [ofLZ, entryZ, listD0z, Matrix.map_apply, Matrix.smul_apply] at h2

/-- **C6** amended: at delta_t = 0 the transition matrix is the identity and
no NaN arises, but the control matrix equals the block-diagonal expansion of
[[0,0],[1,0],[0,1]] (not zero), and the process noise equals accelStd
squared times the block-diagonal expansion of diag(0,1,1) (zero only for
accelStd = 0). -/
theorem dt_zero_actual :
    get_transition_matrix 0 = 1 ∧
    get_control_matrix 0 = ofL 9 6 (make_nd [[0, 0], [1, 0], [0, 1]] 3) ∧
    ∀ a : ℚ, get_process_noise 0 a =
      a ^ 2 • ofL 9 9 (make_nd [[0, 0, 0], [0, 1, 0], [0, 0, 1]] 3) := by
  refine ⟨transition0_eq, ?_, fun a => ?_⟩
  · rw [control0_eq]
    have hl : make_nd [[(0 : ℚ), 0], [1, 0], [0, 1]] 3 =
        listG0z.map (List.map fun k : ℤ => (k : ℚ) * 1) := by
      rw [show make_nd [[(0 : ℚ), 0], [1, 0], [0, 1]] 3 =
          [[0, 0, 0, 0, 0, 0],
           [1, 0, 0, 0, 0, 0],
           [0, 1, 0, 0, 0, 0],
           [0, 0, 0, 0, 0, 0],
           [0, 0, 1, 0, 0, 0],
           [0, 0, 0, 1, 0, 0],
           [0, 0, 0, 0, 0, 0],
           [0, 0, 0, 0, 1, 0],
           [0, 0, 0, 0, 0, 1]] from rfl]
      norm_num [listG0z]
    rw [hl, ofL_map_smul, one_smul]
  · rw [show get_process_noise 0 a =
        a ^ 2 • (get_control_matrix 0 * (get_control_matrix 0)ᵀ) from rfl, gg0_eq]
    have hl : make_nd [[(0 : ℚ), 0, 0], [0, 1, 0], [0, 0, 1]] 3 =
        listD0z.map (List.map fun k : ℤ => (k : ℚ) * 1) := by
      rw [show make_nd [[(0 : ℚ), 0, 0], [0, 1, 0], [0, 0, 1]] 3 =
          [[0, 0, 0, 0, 0, 0, 0, 0, 0],
           [0, 1, 0, 0, 0, 0, 0, 0, 0],
           [0, 0, 1, 0, 0, 0, 0, 0, 0],
           [0, 0, 0, 0, 0, 0, 0, 0, 0],
           [0, 0, 0, 0, 1, 0, 0, 0, 0],
           [0, 0, 0, 0, 0, 1, 0, 0, 0],
           [0, 0, 0, 0, 0, 0, 0, 0, 0],
           [0, 0, 0, 0, 0, 0, 0, 1, 0],
           [0, 0, 0, 0, 0, 0, 0, 0, 1]] from rfl]
      norm_num [listD0z]
    rw [hl, ofL_map_smul, one_smul]

/-- **C7**: accelStd = 0 gives exactly the zero process-noise matrix, by
direct equality, for every time step. -/
theorem process_noise_zero_accel (t : ℚ) : get_process_noise t 0 = 0 := by
  unfold get_process_noise
  norm_num

/-- **C8** counterexample: the code performs no symmetry validation.  The
update call with the non-symmetric R succeeds instead of being rejected,
and the predict step uses the non-symmetric Q as supplied. -/
theorem no_symmetry_check_counterexample :
    cxRᵀ ≠ cxR ∧
    (update (1 : Matrix (Fin 2) (Fin 2) ℚ) 0 cxR 0 1).toOption.isSome = true ∧
    cxQᵀ ≠ cxQ ∧
    (predict 1 (1 : Matrix (Fin 2) (Fin 2) ℚ) cxQ 0 0 1).P =
      1 * 1 * (1 : Matrix (Fin 2) (Fin 2) ℚ)ᵀ + cxQ := by
  refine ⟨?_, ?_, ?_, rfl⟩
  · intro h
    have h2 := congrFun (congrFun h ⟨0, by omega⟩) ⟨1, by omega⟩
    norm_num [cxR, ofL, entry, Matrix.transpose_apply] at h2
  · have hdet : ((1 : Matrix (Fin 2) (Fin 2) ℚ) * 1 * (1 : Matrix (Fin 2) (Fin 2) ℚ)ᵀ +
        cxR).det ≠ 0 := by
      norm_num [Matrix.det_fin_two, Matrix.add_apply, Matrix.one_apply, cxR, ofL, entry]
    rw [update_eq_ok _ _ _ _ _ hdet]
    rfl
  · intro h
    have h2 := congrFun (congrFun h ⟨0, by omega⟩) ⟨1, by omega⟩
    norm_num [cxQ, ofL, entry, Matrix.transpose_apply] at h2

/-- **C8** amended: neither predict nor update validates symmetry of its
covariance argument; predict always succeeds and uses Q as supplied, and
update succeeds whenever the innovation covariance is invertible, whether
or not R is symmetric; no InvalidCovarianceInput error exists in the code. -/
theorem no_symmetry_validation {n c m : ℕ} (F : Matrix (Fin n) (Fin n) ℚ)
    (G : Matrix (Fin n) (Fin c) ℚ) (Q : Matrix (Fin n) (Fin n) ℚ) (u : Fin c → ℚ)
    (H : Matrix (Fin m) (Fin n) ℚ) (z : Fin m → ℚ) (R : Matrix (Fin m) (Fin m) ℚ)
    (x : Fin n → ℚ) (P : Matrix (Fin n) (Fin n) ℚ)
    (hdet : (H * P * Hᵀ + R).det ≠ 0) :
    (predict F G Q u x P).P = F * P * Fᵀ + Q ∧
    (update H z R x P).toOption.isSome = true := by
  refine ⟨rfl, ?_⟩
  rw [update_eq_ok _ _ _ _ _ hdet]
  rfl

/-- Witness for C8 amended, at the non-symmetric cxQ and cxR. -/
theorem no_symmetry_validation_witness :
    (((1 : Matrix (Fin 2) (Fin 2) ℚ) * 1 * (1 : Matrix (Fin 2) (Fin 2) ℚ)ᵀ +
        cxR).det ≠ 0) ∧
    ((predict 1 (1 : Matrix (Fin 2) (Fin 2) ℚ) cxQ 0 0 1).P =
        1 * 1 * (1 : Matrix (Fin 2) (Fin 2) ℚ)ᵀ + cxQ ∧
      (update (1 : Matrix (Fin 2) (Fin 2) ℚ) 0 cxR 0 1).toOption.isSome = true) := by
  have hdet : ((1 : Matrix (Fin 2) (Fin 2) ℚ) * 1 * (1 : Matrix (Fin 2) (Fin 2) ℚ)ᵀ +
      cxR).det ≠ 0 := by
    norm_num [Matrix.det_fin_two, Matrix.add_apply, Matrix.one_apply, cxR, ofL, entry]
  exact ⟨hdet, no_symmetry_validation 1 (1 : Matrix (Fin 2) (Fin 2) ℚ) cxQ 0 1 0 cxR 0 1 hdet⟩

/-- **C9**: in the scenario with three axes, delta_t = 0.01, accelStd = 0.02,
initial position (0, 0, 0.6), initial position standard deviation 0.2, one
predict with zero control followed by one update with measurement
(0, 0, 0.62) and measurement covariance diag(1e-4, 1e-4, 1e-4) succeeds and
puts the z-axis position estimate strictly between 0.6 and 0.62. -/
theorem scenario_update_position :
    scenUpdate.toOption.isSome = true ∧
    0.6 < (scenUpdate.toOption.getD scenPredict).x 6 ∧
    (scenUpdate.toOption.getD scenPredict).x 6 < 0.62 := by
  have hupd := update_eq_ok get_observation_matrix scenz scenR scenPredict.x
    scenPredict.P scenS_det_ne
  have h1 : (scenUpdate.toOption.getD scenPredict).x 6 =
      1243001240031 / 2005002000050 := by
    rw [show scenUpdate =
        update get_observation_matrix scenz scenR scenPredict.x scenPredict.P from rfl,
      hupd]
    exact scenVal_eq
  have h2 : scenUpdate.toOption.isSome = true := by
    rw [show scenUpdate =
        update get_observation_matrix scenz scenR scenPredict.x scenPredict.P from rfl,
      hupd]
    rfl
  refine ⟨h2, ?_, ?_⟩ <;> rw [h1] <;> norm_num

@[simp] theorem cons_val_five {α : Type*} {m : ℕ} (x : α) (u : Fin (m + 5) → α) :
    vecCons x u 5 = vecHead (vecTail (vecTail (vecTail (vecTail u)))) := rfl

@[simp] theorem cons_val_six {α : Type*} {m : ℕ} (x : α) (u : Fin (m + 6) → α) :
    vecCons x u 6 = vecHead (vecTail (vecTail (vecTail (vecTail (vecTail u))))) := rfl

@[simp] theorem cons_val_seven {α : Type*} {m : ℕ} (x : α) (u : Fin (m + 7) → α) :
    vecCons x u 7 =
      vecHead (vecTail (vecTail (vecTail (vecTail (vecTail (vecTail u)))))) := rfl

@[simp] theorem cons_val_eight {α : Type*} {m : ℕ} (x : α) (u : Fin (m + 8) → α) :
    vecCons x u 8 =
      vecHead (vecTail (vecTail (vecTail (vecTail (vecTail (vecTail (vecTail u))))))) := rfl

@[simp] theorem vecHead_fun_const {α : Type*} {m : ℕ} (a : α) :
    vecHead (fun _ : Fin (m + 1) => a) = a := rfl

@[simp] theorem vecTail_fun_const {α : Type*} {m : ℕ} (a : α) :
    vecTail (fun _ : Fin (m + 1) => a) = fun _ : Fin m => a := rfl

set_option maxHeartbeats 3200000 in
/-- **C10**: the expanded transition matrices form a one-parameter semigroup,
and at time step zero the transition is the identity. -/
theorem transition_semigroup :
    (∀ t1 t2 : ℚ, get_transition_matrix t1 * get_transition_matrix t2 =
      get_transition_matrix (t1 + t2)) ∧
    get_transition_matrix 0 = 1 := by
  refine ⟨fun t1 t2 => ?_, transition0_eq⟩
  rw [transition_explicit t1, transition_explicit t2, transition_explicit (t1 + t2)]
  ext i j
  fin_cases i <;> fin_cases j <;>
    simp [Matrix.mul_apply, Matrix.dotProduct, Fin.sum_univ_succ] <;>
    ring_nf

end Kalman
